import Mathlib

/-!
Shallow embedding of the CRSF client (crsf.py): CRC8 engine, frame codec,
stream parser, int32 codec, PPM channel decode and the parameter entity
(chunk reassembly, type decode, float write encoding).

Conventions of the embedding:
  - bytes are modelled as Nat (Python bytearray values); list slices
    data[a:b] become (l.take b).drop a, data[a:] becomes l.drop a,
    data[:-1] becomes l.dropLast;
  - Python functions that can raise an uncaught exception return Option,
    with none meaning the exception propagates; exceptions swallowed by a
    try/except in the source are ordinary some-results;
  - Python str values produced by bytes.decode() are kept as raw byte
    lists (UTF-8 validation is not modelled);
  - wall-clock time (time.time()) is passed in explicitly as a rational
    argument named now.
-/

namespace TbsAgent

/-! ### CRC8 engine (class crsf_crc8 and calc_crc8) -/

/-- One shift step of crsf_crc8._calc: state is (val, byte). -/
def crc8_step (poly : Nat) (vb : Nat × Nat) : Nat × Nat :=
  let msb_flag := vb.1 &&& 0x80
  let v := vb.1 <<< 1
  let v := if vb.2 &&& 0x80 ≠ 0 then v + 1 else v
  let b := vb.2 <<< 1
  let v := if msb_flag ≠ 0 then v ^^^ poly else v
  (v, b)

/-- crsf_crc8._calc: fold one byte into the residue (8 shift steps, then
mask to 8 bits, exactly as the Python loop does). -/
def crc8_calc (poly : Nat) (val byte : Nat) : Nat :=
  ((crc8_step poly)^[8] (val, byte)).1 &&& 0xFF

/-- crsf_crc8.digest over a byte list starting from residue val. -/
def crc8_digest (poly : Nat) (val : Nat) (data : List Nat) : Nat :=
  data.foldl (crc8_calc poly) val

/-- crsf_crc8.finish: fold one extra zero byte. -/
def crc8_finish (poly : Nat) (val : Nat) : Nat :=
  crc8_calc poly val 0

/-- calc_crc8: CRC8 as used for CRSF frames (polynomial 0xD5, zero init,
one extra zero byte folded at the end). -/
def calc_crc8 (data : List Nat) : Nat :=
  crc8_finish 0xD5 (crc8_digest 0xD5 0 data)

/-! ### Frame object (class crsf_frame) -/

structure crsf_frame where
  data : List Nat
deriving DecidableEq, Repr

namespace crsf_frame

/-- Property len: data[1] + 2. -/
def len (f : crsf_frame) : Nat := f.data.getD 1 0 + 2

/-- Property type: data[2]. -/
def type (f : crsf_frame) : Nat := f.data.getD 2 0

/-- Property is_extended: 0x28 <= type <= 0x96 or type == 0xAA. -/
def is_extended (f : crsf_frame) : Bool :=
  (0x28 ≤ f.type && f.type ≤ 0x96) || f.type == 0xAA

/-- Property origin: data[4] for extended frames, None otherwise. -/
def origin (f : crsf_frame) : Option Nat :=
  if f.is_extended then f.data.get? 4 else none

/-- Property destination: data[3] for extended frames, None otherwise. -/
def destination (f : crsf_frame) : Option Nat :=
  if f.is_extended then f.data.get? 3 else none

/-- Property payload: data[5:-1] for extended frames, data[3:-1] otherwise. -/
def payload (f : crsf_frame) : List Nat :=
  (f.data.drop (if f.is_extended then 5 else 3)).dropLast

end crsf_frame

/-- create_frame: prepend [SYNC, 0], set the length byte to len(frame) - 1,
append CRC8 over everything after the length byte. -/
def create_frame (data : List Nat) : crsf_frame :=
  ⟨0xC8 :: (data.length + 1) :: (data ++ [calc_crc8 data])⟩

/-! ### Stream parser (class crsf_parser, method digest)

The Python digest loop mutates a buffer; we model one quiescent run of the
loop as a function from the buffer to (emitted frames, remaining buffer).
Each loop iteration consumes at least one byte, so the buffer length is
enough fuel; digestAux is fuel-indexed structural recursion and digestLoop
instantiates the fuel. -/

def digestAux : Nat → List Nat → List (List Nat) × List Nat
  | 0, buf => ([], buf)
  | fuel + 1, buf =>
    if 4 ≤ buf.length then
      -- while self.data and self.data[0] != CRSF.SYNC: discard one byte
      let buf1 := buf.dropWhile (fun b => b ≠ 0xC8)
      if 1 < buf1.length then
        let frame_len := buf1.getD 1 0 + 2
        if frame_len ≤ buf1.length then
          let crc_byte := buf1.getD (frame_len - 1) 0
          let calc_crc := calc_crc8 ((buf1.take (frame_len - 1)).drop 2)
          if crc_byte = calc_crc then
            let rest := digestAux fuel (buf1.drop frame_len)
            (buf1.take frame_len :: rest.1, rest.2)
          else
            digestAux fuel (buf1.drop 1)
        else ([], buf1)
      else ([], buf1)
    else ([], buf)

/-- One quiescent run of the crsf_parser.digest loop on a buffer. -/
def digestLoop (buf : List Nat) : List (List Nat) × List Nat :=
  digestAux buf.length buf

/-- crsf_parser.digest: append the incoming bytes to the parser state and
run the loop; returns (frames as byte lists, new parser state). -/
def parserDigest (st input : List Nat) : List (List Nat) × List Nat :=
  digestLoop (st ++ input)

/-- One digest call: accumulate the frames yielded so far together with
the current parser state. -/
def digestStep (acc : List (List Nat) × List Nat) (piece : List Nat) :
    List (List Nat) × List Nat :=
  (acc.1 ++ (parserDigest acc.2 piece).1, (parserDigest acc.2 piece).2)

/-- Feed a list of byte chunks to the parser one digest call at a time,
collecting every frame yielded, starting from parser state st. -/
def feedAll (st : List Nat) (pieces : List (List Nat)) :
    List (List Nat) × List Nat :=
  pieces.foldl digestStep ([], st)

/-- The frame invariants checked by the stream parser before a frame is
emitted: leading SYNC byte, total length equal to the LEN byte plus two,
and the CRC8 over everything between the LEN byte and the CRC byte equal
to the trailing byte. -/
def frameInv (fr : List Nat) : Prop :=
  fr.getD 0 0 = 0xC8 ∧ fr.length = fr.getD 1 0 + 2 ∧
    fr.getD (fr.length - 1) 0 = calc_crc8 ((fr.take (fr.length - 1)).drop 2)

/-- A well-formed wire frame: at least four bytes and the frame
invariants. Every create_frame result on a non-empty body satisfies it. -/
def wfFrame (F : List Nat) : Prop :=
  4 ≤ F.length ∧ F.getD 0 0 = 0xC8 ∧ F.getD 1 0 + 2 = F.length ∧
    F.getD (F.length - 1) 0 = calc_crc8 ((F.take (F.length - 1)).drop 2)

/-- A buffer on which one run of the digest loop makes no progress: too
short to enter the loop, or a SYNC-led buffer shorter than its announced
frame length (e.g. any proper prefix of a well-formed frame). -/
def pendingBuf (Q : List Nat) : Prop :=
  Q.length < 4 ∨ (Q.getD 0 0 = 0xC8 ∧ Q.length < Q.getD 1 0 + 2)

instance (fr : List Nat) : Decidable (frameInv fr) := by
  unfold frameInv; infer_instance

instance (F : List Nat) : Decidable (wfFrame F) := by
  unfold wfFrame; infer_instance

instance (Q : List Nat) : Decidable (pendingBuf Q) := by
  unfold pendingBuf; infer_instance

/-! ### int32 codec (CRSF.decode_int32 / CRSF.encode_int32) -/

namespace CRSF

/-- CRSF.decode_int32. The Python negative branch computes
-(~uint32) - 1 on an unbounded int, where ~u = -u - 1, which we transcribe
literally. Reading fewer than four bytes raises IndexError (none). -/
def decode_int32 (data : List Nat) : Option Int := do
  let b0 ← data.get? 0
  let b1 ← data.get? 1
  let b2 ← data.get? 2
  let b3 ← data.get? 3
  let uint32 : Nat := (b0 <<< 24) ||| (b1 <<< 16) ||| (b2 <<< 8) ||| b3
  if uint32 &&& 0x80000000 ≠ 0 then
    return -(-(uint32 : Int) - 1) - 1
  else
    return (uint32 : Int)

/-- CRSF.encode_int32: four big-endian bytes; Python (val >> k) & 0xFF on an
unbounded int is floor division by 2^k followed by mod 256. -/
def encode_int32 (val : Int) : List Nat :=
  [ ((val.fdiv (2 ^ 24)).emod 256).toNat,
    ((val.fdiv (2 ^ 16)).emod 256).toNat,
    ((val.fdiv (2 ^ 8)).emod 256).toNat,
    (val.emod 256).toNat ]

end CRSF

/-! ### PPM channel decode -/

/-- bin_byte: the eight bits of a byte, most significant first. -/
def byteBits (b : Nat) : List Nat :=
  [ (b >>> 7) &&& 1, (b >>> 6) &&& 1, (b >>> 5) &&& 1, (b >>> 4) &&& 1,
    (b >>> 3) &&& 1, (b >>> 2) &&& 1, (b >>> 1) &&& 1, b &&& 1 ]

/-- int(s, 2) on a bit list. -/
def bitsToNat (bits : List Nat) : Nat :=
  bits.foldl (fun acc b => 2 * acc + b) 0

/-- ticks_to_us: (x - 992)*5//8 + 1500 with Python floor division. -/
def ticks_to_us (x : Nat) : Int :=
  (((x : Int) - 992) * 5).fdiv 8 + 1500

/-- The Python iteration range(start, 0, -11): start, start-11, ... while
positive (0 itself is excluded because the stop bound is exclusive). -/
def downRange11 (start : Nat) : List Nat :=
  (List.range ((start + 10) / 11)).map (fun k => start - 11 * k)

/-- ppm_channels_decode: build the reversed-byte bit string, assert the bit
count is a multiple of 11 (none on assertion failure), then read 11-bit
words at offsets len-11, len-22, ... (stopping before offset 0). -/
def ppm_channels_decode (data : List Nat) : Option (List Int) :=
  let bits := (data.reverse.map byteBits).flatten
  if bits.length % 11 = 0 then
    some ((downRange11 (bits.length - 11)).map
      (fun x => ticks_to_us (bitsToNat ((bits.drop x).take 11))))
  else
    none

/-! ### Parameter entity (class CRSFParam) -/

/-- The Python self.value field holds either an int (FLOAT and
TEXT_SELECTION kinds) or a str (STRING and INFO kinds). -/
inductive PValue where
  | int (v : Int)
  | str (v : List Nat)
deriving DecidableEq, Repr

structure CRSFParam where
  num : Nat
  parent_folder : Option Nat := none
  type : Option Nat := none
  name : List Nat := [46, 46, 46]      -- the initial placeholder string "..."
  chunks : List (Option (List Nat)) := []
  value : Option PValue := none
  hidden : Nat := 0                     -- initially False; set to data_type & 0x80
  min : Option Int := none
  default : Option Int := none
  max : Option Int := none
  unit : Option (List Nat) := none
  children : Option (List Nat) := none
  options : List (List Nat) := []
  max_length : Option Nat := none
  decimal_point : Option Nat := none
  step_size : Option Int := none
  status : Option Nat := none
  timeout : Option ℚ := none
  info : Option (List Nat) := none
  created_time : ℚ := 0                 -- scheduler-only; not used by the claims
  obtained_time : ℚ := 0
deriving DecidableEq, Repr

namespace CRSFParam

/-- CRSFParam.__init__ with a parameter number. -/
def init (param_num : Nat) : CRSFParam := { num := param_num }

def TEXT_SELECTION_TYPE : Nat := 0x09
def STRING_TYPE : Nat := 0x0a
def FOLDER_TYPE : Nat := 0x0b
def INFO_TYPE : Nat := 0x0c
def COMMAND_TYPE : Nat := 0x0d
def FLOAT_TYPE : Nat := 8

/-- get_float_decimal: eval of the string 0. + d zeros + 1 when
decimal_point is truthy (so 10^-(d+1)), else 1. A decimal_point of None or
0 is falsy in Python. -/
def get_float_decimal (p : CRSFParam) : ℚ :=
  match p.decimal_point with
  | none => 1
  | some d => if d = 0 then 1 else 1 / 10 ^ (d + 1)

/-- Python round(): nearest integer, ties to even. -/
def pyRound (q : ℚ) : Int :=
  let f := ⌊q⌋
  if q - f < 1 / 2 then f
  else if q - f > 1 / 2 then f + 1
  else if f % 2 = 0 then f else f + 1

/-- encode_float: quantise val by get_float_decimal, then range-check
against self.min and self.max. The outer none means a Python TypeError
(comparison with an unset bound); the inner none is the explicit
out-of-range None return. -/
def encode_float (p : CRSFParam) (val : ℚ) : Option (Option Int) := do
  let v : Int := pyRound (val / p.get_float_decimal)
  let mn ← p.min
  if v < mn then return none
  let mx ← p.max
  if v > mx then return none
  return (some v)

/-- The chunk-buffer validity check performed when the terminal chunk
arrives (lines 821-823 of crsf.py): no slot empty, the recorded
chunks_remaining bytes strictly decreasing down to 0, and every slot
carrying this parameter number. Accessing byte 0 or 1 of a slot shorter
than two bytes raises IndexError (none); Python's and short-circuits, so
later accesses do not happen when an earlier conjunct is already False. -/
def chunksValid (num : Nat) (cs : List (Option (List Nat))) : Option Bool :=
  if cs.any Option.isNone then some false
  else
    match (cs.map (fun c => c.getD [])).mapM (fun c => c.get? 1) with
    | none => none
    | some vals1 =>
      if vals1.reverse = List.range cs.length then
        match (cs.map (fun c => c.getD [])).mapM (fun c => c.get? 0) with
        | none => none
        | some vals0 =>
          some (vals0.countP (fun b => b = num) = cs.length)
      else some false

/-- The type-specific decode in CRSFParam.process_frame (lines 836-964),
applied after chunk reassembly. The argument entry is payload[2:], i.e.
the payload with its two leading [param_num, chunks_remaining] bytes
removed (the decode never reads those two bytes); every source index nul+j
relative to payload appears here as nulE+j relative to entry with
nulE = nul - 2. chunks_remain is the variable from the terminal frame
(always 0 on every reachable call, kept for fidelity to the source
conditionals). -/
def decode_entry (p : CRSFParam) (entry : List Nat) (chunks_remain : Nat)
    (now : ℚ) : Option CRSFParam := do
  -- parent_folder, data_type = payload[2:4]  (ValueError if too short)
  let parent_folder ← entry.get? 0
  let dt ← entry.get? 1
  let hidden := dt &&& 0x80
  let data_type := dt &&& 0x7F
  -- nul = 4 + payload[4:].index(0x00); failure is caught and the frame dropped
  match (entry.drop 2).findIdx? (fun b => b = 0) with
  | none => return p
  | some i =>
    let nulE := 2 + i
    let name := (entry.take nulE).drop 2
    if data_type = FOLDER_TYPE then
      match (entry.drop (nulE + 1)).findIdx? (fun b => b = 0xFF) with
      | none => return p
      | some j =>
        let endi := nulE + 1 + j
        let children := (entry.take endi).drop (nulE + 1)
        if chunks_remain = 0 then
          return { p with children := some children,
                          parent_folder := some parent_folder,
                          type := some data_type, name := name,
                          hidden := hidden, obtained_time := now }
        else return p
    else if data_type = COMMAND_TYPE then
      match (entry.drop (nulE + 3)).findIdx? (fun b => b = 0) with
      | none => return p
      | some j =>
        let endi := nulE + 3 + j
        let inf := (entry.take endi).drop (nulE + 3)
        if chunks_remain = 0 then do
          let st ← entry.get? (nulE + 1)
          let tb ← entry.get? (nulE + 2)
          return { p with parent_folder := some parent_folder,
                          type := some data_type, name := name,
                          hidden := hidden, status := some st,
                          timeout := some (if tb % 10 ≠ 0 then (tb : ℚ) / 10
                                           else ((tb / 10 : Nat) : ℚ)),
                          info := some inf, obtained_time := now }
        else return p
    else if data_type = FLOAT_TYPE then
      match (entry.drop (nulE + 22)).findIdx? (fun b => b = 0) with
      | none => return p
      | some j =>
        let endi := nulE + 22 + j
        let unit := (entry.take endi).drop (nulE + 22)
        if chunks_remain = 0 then do
          let v ← CRSF.decode_int32 ((entry.take (nulE + 5)).drop (nulE + 1))
          let mn ← CRSF.decode_int32 ((entry.take (nulE + 9)).drop (nulE + 5))
          let mx ← CRSF.decode_int32 ((entry.take (nulE + 13)).drop (nulE + 9))
          let df ← CRSF.decode_int32 ((entry.take (nulE + 17)).drop (nulE + 13))
          let dp ← entry.get? (nulE + 17)
          let ss ← CRSF.decode_int32 ((entry.take (nulE + 22)).drop (nulE + 18))
          return { p with parent_folder := some parent_folder,
                          type := some data_type, hidden := hidden,
                          name := name, value := some (PValue.int v),
                          min := some mn, max := some mx, default := some df,
                          decimal_point := some dp, step_size := some ss,
                          unit := some unit, obtained_time := now }
        else return p
    else if data_type = STRING_TYPE ∨ data_type = INFO_TYPE then
      match (entry.drop (nulE + 1)).findIdx? (fun b => b = 0) with
      | none => return p
      | some j =>
        let endi := nulE + 1 + j
        let value := (entry.take endi).drop (nulE + 1)
        -- self.max_length is assigned before the chunks_remain test
        let ml ← if data_type = STRING_TYPE then entry.get? (endi + 1)
                 else pure value.length
        if chunks_remain = 0 then
          return { p with max_length := some ml,
                          parent_folder := some parent_folder,
                          type := some data_type, name := name,
                          hidden := hidden, value := some (PValue.str value),
                          obtained_time := now }
        else return { p with max_length := some ml }
    else if data_type = TEXT_SELECTION_TYPE then
      match (entry.drop (nulE + 1)).findIdx? (fun b => b = 0) with
      | none => return p
      | some j =>
        let endi := nulE + 1 + j
        let options := ((entry.take endi).drop (nulE + 1)).splitOn 59
        -- value, val_min, val_max, val_def = payload[end+1:end+5]
        let v ← entry.get? (endi + 1)
        let vmin ← entry.get? (endi + 2)
        let vmax ← entry.get? (endi + 3)
        let vdef ← entry.get? (endi + 4)
        if chunks_remain = 0 then
          return { p with parent_folder := some parent_folder,
                          type := some data_type, name := name,
                          hidden := hidden, value := some (PValue.int v),
                          options := options, min := some (vmin : Int),
                          default := some (vdef : Int), max := some (vmax : Int),
                          obtained_time := now }
        else return p
    else
      -- numeric and unknown kinds: record identity only
      return { p with parent_folder := some parent_folder,
                      type := some data_type, name := name, hidden := hidden,
                      obtained_time := if chunks_remain = 0 then now
                                       else p.obtained_time }

/-- CRSFParam.process_frame on an already-extracted PARAM_ENTRY payload:
chunk buffering, terminal-chunk validation and reassembly, then the type
decode. none models an uncaught Python exception. -/
def process_entry (p : CRSFParam) (payload : List Nat) (now : ℚ) :
    Option CRSFParam := do
  -- param_num, chunks_remain = payload[:2]  (ValueError if shorter)
  let _param_num ← payload.get? 0
  let chunks_remain ← payload.get? 1
  if chunks_remain ≠ 0 then
    -- more chunks expected: allocate on first chunk, store this payload
    let cs := if p.chunks.isEmpty then
                List.replicate (chunks_remain + 1) (none : Option (List Nat))
              else p.chunks
    -- self.chunks[-chunks_remain - 1] = payload  (IndexError if out of range)
    if chunks_remain + 1 ≤ cs.length then
      return { p with chunks := cs.set (cs.length - (chunks_remain + 1)) (some payload) }
    else none
  else if ¬ p.chunks.isEmpty then
    -- terminal chunk with a pending buffer: fill the last slot and validate
    let cs := p.chunks.set (p.chunks.length - 1) (some payload)
    match chunksValid p.num cs with
    | none => none
    | some false => return { p with chunks := cs }   -- buffer kept, frame dropped
    | some true =>
      -- reassemble: first chunk's two-byte prefix, then every chunk from
      -- offset 2 on (chunksValid true guarantees every slot is present)
      let payload2 := ((cs.headD none).getD []).take 2
        ++ (cs.map (fun c => (c.getD []).drop 2)).flatten
      decode_entry { p with chunks := [] } (payload2.drop 2) chunks_remain now
  else
    decode_entry p (payload.drop 2) chunks_remain now

/-- CRSFParam.process_frame: frames of any other type are ignored. -/
def process_frame (p : CRSFParam) (f : crsf_frame) (now : ℚ) :
    Option CRSFParam :=
  if f.type ≠ 0x2B then some p
  else process_entry p f.payload now

/-- Deliver a sequence of PARAM_ENTRY payloads; an uncaught exception at
any step aborts the sequence. -/
def processSeq (p : CRSFParam) (payloads : List (List Nat)) (now : ℚ) :
    Option CRSFParam :=
  payloads.foldlM (fun s pl => process_entry s pl now) p

end CRSFParam

/-- The PARAM_ENTRY payloads obtained by splitting one entry into chunks:
piece i is prefixed with [param_num, chunks_remaining] where
chunks_remaining counts the pieces still to come. -/
def chunkFrames (pn : Nat) : List (List Nat) → List (List Nat)
  | [] => []
  | c :: cs => (pn :: cs.length :: c) :: chunkFrames pn cs

/-- The chunk-buffer contents after storing the non-terminal chunks of cs
followed by one further terminal chunk (the extra + 1 in the recorded
chunks_remaining byte). -/
def storedChunks (pn : Nat) : List (List Nat) → List (Option (List Nat))
  | [] => []
  | c :: cs => some (pn :: (cs.length + 1) :: c) :: storedChunks pn cs

/-- An extended PARAM_ENTRY frame with the given body as its payload. -/
def param_entry_frame (dest orig : Nat) (body : List Nat) : crsf_frame :=
  create_frame (0x2B :: dest :: orig :: body)

/-- Deliver a sequence of frames to CRSFParam.process_frame. -/
def processFrameSeq (p : CRSFParam) (frames : List crsf_frame) (now : ℚ) :
    Option CRSFParam :=
  frames.foldlM (fun s f => CRSFParam.process_frame s f now) p

end TbsAgent

namespace TbsAgent

/-! ## Theorems -/

/-- The digest loop consumes at least one byte per iteration, so any fuel
at least the buffer length computes the same result. -/
theorem digestAux_fuel : ∀ (f₁ f₂ : Nat) (buf : List Nat),
    buf.length ≤ f₁ → buf.length ≤ f₂ → digestAux f₁ buf = digestAux f₂ buf := by
  intro f₁
  induction f₁ with
  | zero =>
    intro f₂ buf h₁ h₂
    have hb : buf = [] := List.length_eq_zero.mp (Nat.le_zero.mp h₁)
    subst hb
    cases f₂ with
    | zero => rfl
    | succ g => simp [digestAux]
  | succ g₁ ih =>
    intro f₂ buf h₁ h₂
    cases f₂ with
    | zero =>
      have hb : buf = [] := List.length_eq_zero.mp (Nat.le_zero.mp h₂)
      subst hb
      simp [digestAux]
    | succ g₂ =>
      simp only [digestAux]
      by_cases h4 : 4 ≤ buf.length
      · simp only [if_pos h4]
        have hle : (buf.dropWhile (fun b => b ≠ 0xC8)).length ≤ buf.length :=
          (List.dropWhile_sublist _).length_le
        set buf1 := buf.dropWhile (fun b => b ≠ 0xC8) with hb1
        by_cases h1 : 1 < buf1.length
        · simp only [if_pos h1]
          by_cases hf : buf1.getD 1 0 + 2 ≤ buf1.length
          · simp only [if_pos hf]
            have hdroplen : (buf1.drop (buf1.getD 1 0 + 2)).length ≤ g₁ ∧
                (buf1.drop (buf1.getD 1 0 + 2)).length ≤ g₂ := by
              constructor <;> · simp only [List.length_drop]; omega
            have hdrop1 : (buf1.drop 1).length ≤ g₁ ∧ (buf1.drop 1).length ≤ g₂ := by
              constructor <;> · simp only [List.length_drop]; omega
            rw [ih g₂ _ hdroplen.1 hdroplen.2, ih g₂ _ hdrop1.1 hdrop1.2]
          · simp only [if_neg hf]
        · simp only [if_neg h1]
      · simp only [if_neg h4]

/-- One unfolding of digestAux at sufficient fuel, with digestLoop in the
recursive positions. -/
theorem digestAux_eq_body (n : Nat) (buf : List Nat) (h : buf.length ≤ n + 1) :
    digestAux (n + 1) buf =
    if 4 ≤ buf.length then
      let buf1 := buf.dropWhile (fun b => b ≠ 0xC8)
      if 1 < buf1.length then
        let frame_len := buf1.getD 1 0 + 2
        if frame_len ≤ buf1.length then
          if buf1.getD (frame_len - 1) 0
              = calc_crc8 ((buf1.take (frame_len - 1)).drop 2) then
            (buf1.take frame_len :: (digestLoop (buf1.drop frame_len)).1,
             (digestLoop (buf1.drop frame_len)).2)
          else digestLoop (buf1.drop 1)
        else ([], buf1)
      else ([], buf1)
    else ([], buf) := by
  simp only [digestAux]
  by_cases h4 : 4 ≤ buf.length
  · simp only [if_pos h4]
    have hle : (buf.dropWhile (fun b => b ≠ 0xC8)).length ≤ buf.length :=
      (List.dropWhile_sublist _).length_le
    set buf1 := buf.dropWhile (fun b => b ≠ 0xC8) with hb1
    by_cases h1 : 1 < buf1.length
    · simp only [if_pos h1]
      by_cases hf : buf1.getD 1 0 + 2 ≤ buf1.length
      · simp only [if_pos hf]
        have e1 : digestAux n (buf1.drop (buf1.getD 1 0 + 2))
            = digestLoop (buf1.drop (buf1.getD 1 0 + 2)) := by
          apply digestAux_fuel
          · simp only [List.length_drop]; omega
          · exact Nat.le_refl _
        have e2 : digestAux n (buf1.drop 1) = digestLoop (buf1.drop 1) := by
          apply digestAux_fuel
          · simp only [List.length_drop]; omega
          · exact Nat.le_refl _
        rw [e1, e2]
      · simp only [if_neg hf]
    · simp only [if_neg h1]
  · simp only [if_neg h4]

/-- Unfolding equation for digestLoop with digestLoop in the recursive
positions. -/
theorem digestLoop_eq (buf : List Nat) : digestLoop buf =
    if 4 ≤ buf.length then
      let buf1 := buf.dropWhile (fun b => b ≠ 0xC8)
      if 1 < buf1.length then
        let frame_len := buf1.getD 1 0 + 2
        if frame_len ≤ buf1.length then
          if buf1.getD (frame_len - 1) 0
              = calc_crc8 ((buf1.take (frame_len - 1)).drop 2) then
            (buf1.take frame_len :: (digestLoop (buf1.drop frame_len)).1,
             (digestLoop (buf1.drop frame_len)).2)
          else digestLoop (buf1.drop 1)
        else ([], buf1)
      else ([], buf1)
    else ([], buf) := by
  rcases hn : buf.length with _ | n
  · have hb : buf = [] := List.length_eq_zero.mp hn
    subst hb
    simp [digestLoop, digestAux]
  · have hl : digestLoop buf = digestAux (n + 1) buf := by
      unfold digestLoop
      rw [hn]
    rw [hl, digestAux_eq_body n buf (by omega)]
    rw [hn]

/-- Every frame built from a non-empty body is well formed. -/
theorem wfFrame_create_frame (B : List Nat) (hB : B ≠ []) :
    wfFrame (create_frame B).data := by
  have hlen : (create_frame B).data.length = B.length + 3 := by
    simp [create_frame]
  have hBpos : 0 < B.length := List.length_pos.mpr hB
  refine ⟨?_, ?_, ?_, ?_⟩
  · rw [hlen]; omega
  · rfl
  · rw [hlen]; rfl
  · rw [hlen]
    show (create_frame B).data.getD (B.length + 2) 0 = _
    have h1 : (create_frame B).data.getD (B.length + 2) 0 = calc_crc8 B := by
      have hform : (create_frame B).data
          = (0xC8 :: (B.length + 1) :: B) ++ [calc_crc8 B] := by
        simp [create_frame]
      rw [hform, List.getD_eq_getElem?_getD]
      have : B.length + 2 = (0xC8 :: (B.length + 1) :: B).length := by simp
      rw [this, List.getElem?_concat_length]
      rfl
    have h2 : ((create_frame B).data.take (B.length + 3 - 1)).drop 2 = B := by
      simp only [create_frame]
      have : B.length + 3 - 1 = B.length + 2 := by omega
      rw [this]
      simp only [List.take_succ_cons, List.take_append_eq_append_take,
        List.take_length, Nat.sub_self, List.take_zero, List.append_nil]
      rfl
    rw [h1, h2]

/-- A buffer that cannot make progress is returned unchanged with no
frames. -/
theorem digestLoop_pending (Q : List Nat) (h : pendingBuf Q) :
    digestLoop Q = ([], Q) := by
  rw [digestLoop_eq]
  rcases h with h | ⟨hsync, hshort⟩
  · rw [if_neg (by omega)]
  · by_cases h4 : 4 ≤ Q.length
    · rcases Q with _ | ⟨q0, Q'⟩
      · simp at h4
      · have hq0 : q0 = 0xC8 := by simpa [List.getD_cons_zero] using hsync
        subst hq0
        have hdw : (0xC8 :: Q').dropWhile (fun b => b ≠ 0xC8) = 0xC8 :: Q' := by
          rw [List.dropWhile_cons_of_neg]
          simp
        simp only [if_pos h4, hdw]
        rw [if_pos (by simp at h4 ⊢; omega), if_neg (by
          simp only [List.length_cons] at hshort ⊢
          omega)]
    · rw [if_neg h4]

/-- Emitting a well-formed frame at the head of the buffer: the parser
yields it and continues on the remainder. -/
theorem digestLoop_cons_frame (G rest : List Nat) (hG : wfFrame G) :
    digestLoop (G ++ rest)
      = (G :: (digestLoop rest).1, (digestLoop rest).2) := by
  obtain ⟨h4, hsync, hlen, hcrc⟩ := hG
  rcases G with _ | ⟨g0, G'⟩
  · simp at h4
  · have hg0 : g0 = 0xC8 := by simpa [List.getD_cons_zero] using hsync
    subst hg0
    rw [digestLoop_eq]
    have hL : (0xC8 :: G').length = G'.length + 1 := by simp
    have h4' : 4 ≤ ((0xC8 :: G') ++ rest).length := by
      simp only [List.length_append]; omega
    have hdw : ((0xC8 :: G') ++ rest).dropWhile (fun b => b ≠ 0xC8)
        = (0xC8 :: G') ++ rest := by
      rw [List.cons_append, List.dropWhile_cons_of_neg]
      simp
    simp only [if_pos h4', hdw]
    have hlt : 1 < ((0xC8 :: G') ++ rest).length := by
      simp only [List.length_append]; omega
    rw [if_pos hlt]
    have hget1 : ((0xC8 :: G') ++ rest).getD 1 0 = (0xC8 :: G').getD 1 0 := by
      simp only [List.getD_eq_getElem?_getD]
      rw [List.getElem?_append_left (by simp at h4 ⊢; omega)]
    have hflen : ((0xC8 :: G') ++ rest).getD 1 0 + 2 = (0xC8 :: G').length := by
      rw [hget1, hlen]
    rw [hflen]
    rw [if_pos (by simp only [List.length_append]; omega)]
    have hgetLast : ((0xC8 :: G') ++ rest).getD ((0xC8 :: G').length - 1) 0
        = (0xC8 :: G').getD ((0xC8 :: G').length - 1) 0 := by
      simp only [List.getD_eq_getElem?_getD]
      rw [List.getElem?_append_left (by simp)]
    have htake : (((0xC8 :: G') ++ rest).take ((0xC8 :: G').length - 1)).drop 2
        = ((0xC8 :: G').take ((0xC8 :: G').length - 1)).drop 2 := by
      rw [List.take_append_eq_append_take]
      have : (0xC8 :: G').length - 1 - (0xC8 :: G').length = 0 := by omega
      rw [this, List.take_zero, List.append_nil]
    rw [hgetLast, htake, if_pos hcrc]
    rw [List.take_left, List.drop_left]

/-- The digest loop on a stream of well-formed frames followed by a
pending tail yields exactly those frames in order. -/
theorem digestLoop_stream (Gs : List (List Nat)) (Q : List Nat)
    (hGs : ∀ G ∈ Gs, wfFrame G) (hQ : pendingBuf Q) :
    digestLoop (Gs.flatten ++ Q) = (Gs, Q) := by
  induction Gs with
  | nil => simpa using digestLoop_pending Q hQ
  | cons G Gs ih =>
    have hG : wfFrame G := hGs G (by simp)
    have ih' := ih (fun H hH => hGs H (by simp [hH]))
    rw [List.flatten_cons, List.append_assoc, digestLoop_cons_frame _ _ hG, ih']

/-- Leading bytes that are not SYNC are stripped, provided at least one
whole minimal frame length of data follows. -/
theorem digestLoop_strip (junk rest : List Nat)
    (hj : ∀ b ∈ junk, b ≠ 0xC8) (hr : 4 ≤ rest.length) :
    digestLoop (junk ++ rest) = digestLoop rest := by
  have hdw : ∀ (l : List Nat), (∀ b ∈ l, b ≠ 0xC8) →
      (l ++ rest).dropWhile (fun b => b ≠ 0xC8)
        = rest.dropWhile (fun b => b ≠ 0xC8) := by
    intro l
    induction l with
    | nil => intro _; rfl
    | cons a l ihl =>
      intro hl
      rw [List.cons_append, List.dropWhile_cons_of_pos (by
        simpa using hl a (by simp))]
      exact ihl (fun b hb => hl b (by simp [hb]))
  rw [digestLoop_eq (junk ++ rest), digestLoop_eq rest]
  rw [if_pos (by simp only [List.length_append]; omega), if_pos hr]
  rw [hdw junk hj]

/-- The empty buffer is pending. -/
theorem pendingBuf_nil : pendingBuf ([] : List Nat) := Or.inl (by simp)

/-- Any proper prefix of a well-formed frame is a pending buffer. -/
theorem pendingBuf_take (H : List Nat) (m : Nat) (hH : wfFrame H)
    (hm : m < H.length) : pendingBuf (H.take m) := by
  obtain ⟨h4, hsync, hlen, _⟩ := hH
  by_cases hm4 : m < 4
  · exact Or.inl (by simp only [List.length_take]; omega)
  · refine Or.inr ⟨?_, ?_⟩
    · rw [List.getD_eq_getElem?_getD, List.getElem?_take, if_pos (by omega)]
      rw [← List.getD_eq_getElem?_getD]
      exact hsync
    · have hg1 : (H.take m).getD 1 0 = H.getD 1 0 := by
        rw [List.getD_eq_getElem?_getD, List.getElem?_take, if_pos (by omega)]
        rw [← List.getD_eq_getElem?_getD]
      rw [hg1]
      simp only [List.length_take]
      omega

/-- Decomposing a prefix of a frame stream: it is a whole number of
frames followed by a proper prefix of the next frame. -/
theorem stream_prefix_decomp : ∀ (Fs : List (List Nat)) (C D : List Nat),
    C ++ D = Fs.flatten →
    ∃ Gs Hs, Fs = Gs ++ Hs ∧
      ((Hs = [] ∧ C = Gs.flatten) ∨
       (∃ H Hs' m, Hs = H :: Hs' ∧ m < H.length ∧
         C = Gs.flatten ++ H.take m)) := by
  intro Fs
  induction Fs with
  | nil =>
    intro C D h
    simp only [List.flatten_nil] at h
    rcases List.append_eq_nil.mp h with ⟨hC, _⟩
    exact ⟨[], [], rfl, Or.inl ⟨rfl, by simp [hC]⟩⟩
  | cons F Fs ih =>
    intro C D h
    rw [List.flatten_cons] at h
    by_cases hc : C.length < F.length
    · refine ⟨[], F :: Fs, rfl, Or.inr ⟨F, Fs, C.length, rfl, hc, ?_⟩⟩
      have h1 : C = (C ++ D).take C.length := (List.take_left C D).symm
      rw [h1, h, List.take_append_eq_append_take,
        Nat.sub_eq_zero_of_le (Nat.le_of_lt hc), List.take_zero,
        List.append_nil]
      simp
    · push_neg at hc
      have hCF : C.take F.length = F := by
        have h1 : (C ++ D).take F.length = C.take F.length := by
          rw [List.take_append_eq_append_take,
            Nat.sub_eq_zero_of_le hc, List.take_zero, List.append_nil]
        have h2 : (F ++ Fs.flatten).take F.length = F := List.take_left F _
        rw [← h1, h, h2]
      have hC : C = F ++ C.drop F.length := by
        conv_lhs => rw [← List.take_append_drop F.length C]
        rw [hCF]
      have hrec : C.drop F.length ++ D = Fs.flatten := by
        apply @List.append_cancel_left _ F
        rw [← List.append_assoc, ← hC, h]
      obtain ⟨Gs, Hs, hFs, hrest⟩ := ih (C.drop F.length) D hrec
      refine ⟨F :: Gs, Hs, by rw [List.cons_append, hFs], ?_⟩
      rcases hrest with ⟨h1, h2⟩ | ⟨H, Hs', m, h1, h2, h3⟩
      · exact Or.inl ⟨h1, by rw [List.flatten_cons, hC, h2]⟩
      · exact Or.inr ⟨H, Hs', m, h1, h2, by
          rw [List.flatten_cons, hC, h3, List.append_assoc]⟩

/-- Feeding a split frame stream piece by piece yields exactly the frames
of the stream, in order, with an empty final parser state. Q is the
current parser state, a proper prefix of the next frame (or empty); A
accumulates frames already yielded. -/
theorem feed_fold : ∀ (pieces : List (List Nat)) (A : List (List Nat))
    (Q : List Nat) (Hs : List (List Nat)),
    (∀ H ∈ Hs, wfFrame H) →
    Q ++ pieces.flatten = Hs.flatten →
    (Q = [] ∨ ∃ H Hs' m, Hs = H :: Hs' ∧ m < H.length ∧ Q = H.take m) →
    pieces.foldl digestStep (A, Q) = (A ++ Hs, []) := by
  intro pieces
  induction pieces with
  | nil =>
    intro A Q Hs hwf hsplit hpre
    simp only [List.flatten_nil, List.append_nil] at hsplit
    rcases hpre with hQ | ⟨H, Hs', m, hHs, hm, hQ⟩
    · subst hQ
      have hHs : Hs = [] := by
        cases Hs with
        | nil => rfl
        | cons H Hs' =>
          exfalso
          have h4 : 4 ≤ H.length := (hwf H (by simp)).1
          have : H.length + Hs'.flatten.length = 0 := by
            have := congrArg List.length hsplit
            simpa using this.symm
          omega
      simp [hHs]
    · exfalso
      subst hHs hQ
      have h1 := congrArg List.length hsplit
      simp only [List.length_take, List.flatten_cons, List.length_append] at h1
      omega
  | cons p ps ih =>
    intro A Q Hs hwf hsplit hpre
    rw [List.foldl_cons]
    have hsplit' : (Q ++ p) ++ ps.flatten = Hs.flatten := by
      rw [List.append_assoc, ← @List.flatten_cons _ p ps]
      exact hsplit
    obtain ⟨Gs, Hs₂, hFs, hrest⟩ :=
      stream_prefix_decomp Hs (Q ++ p) ps.flatten hsplit'
    have hwfGs : ∀ G ∈ Gs, wfFrame G := fun G hG =>
      hwf G (by rw [hFs]; exact List.mem_append_left _ hG)
    have hwfHs₂ : ∀ H ∈ Hs₂, wfFrame H := fun H hH =>
      hwf H (by rw [hFs]; exact List.mem_append_right _ hH)
    rcases hrest with ⟨hH2, hQp⟩ | ⟨H, Hs₂', m, hH2, hm, hQp⟩
    · have hdl : digestLoop (Q ++ p) = (Gs, []) := by
        rw [hQp, ← List.append_nil Gs.flatten]
        exact digestLoop_stream Gs [] hwfGs pendingBuf_nil
      have hstep : digestStep (A, Q) p = (A ++ Gs, []) := by
        simp [digestStep, parserDigest, hdl]
      rw [hstep]
      have hps : ps.flatten = Hs₂.flatten := by
        apply @List.append_cancel_left _ (Q ++ p)
        rw [hsplit', hFs, List.flatten_append, hQp]
      rw [ih (A ++ Gs) [] Hs₂ hwfHs₂ (by simpa using hps) (Or.inl rfl)]
      rw [hFs, List.append_assoc]
    · have hwfH : wfFrame H := hwfHs₂ H (by simp [hH2])
      have hdl : digestLoop (Q ++ p) = (Gs, H.take m) := by
        rw [hQp]
        exact digestLoop_stream Gs (H.take m) hwfGs
          (pendingBuf_take H m hwfH hm)
      have hstep : digestStep (A, Q) p = (A ++ Gs, H.take m) := by
        simp [digestStep, parserDigest, hdl]
      rw [hstep]
      have hps : H.take m ++ ps.flatten = Hs₂.flatten := by
        apply @List.append_cancel_left _ Gs.flatten
        rw [← List.append_assoc, ← hQp, hsplit', hFs, List.flatten_append]
      rw [ih (A ++ Gs) (H.take m) Hs₂ hwfHs₂ hps
        (Or.inr ⟨H, Hs₂', m, hH2, hm, rfl⟩)]
      rw [hFs, List.append_assoc]

/-- Claim C4: for every non-empty body B (total length at most 254, byte
values below 256) and every way of splitting the concatenation of the
frames create_frame(B_1), ..., create_frame(B_n) into consecutive pieces,
feeding the pieces in order to a fresh crsf_parser.digest yields exactly
those frames, in order, with nothing pending; the single-frame round trip
is the case n = 1. -/
theorem c4_stream_roundtrip (bodies pieces : List (List Nat))
    (hb : ∀ B ∈ bodies, B ≠ [] ∧ B.length ≤ 254 ∧ ∀ x ∈ B, x < 256)
    (hsplit : pieces.flatten
      = (bodies.map (fun B => (create_frame B).data)).flatten) :
    feedAll [] pieces = (bodies.map (fun B => (create_frame B).data), []) := by
  unfold feedAll
  have h := feed_fold pieces [] []
    (bodies.map (fun B => (create_frame B).data))
    (by
      intro H hH
      obtain ⟨B, hB, rfl⟩ := List.mem_map.mp hH
      exact wfFrame_create_frame B (hb B hB).1)
    (by simpa using hsplit)
    (Or.inl rfl)
  simpa using h

/-- Witness for C4 at a concrete PING frame split into three pieces. -/
theorem c4_stream_roundtrip_witness :
    feedAll [] [[0xC8, 0x04], [0x28], [0x00, 0xEA, 0x54]]
      = ([[0x28, 0x00, 0xEA]].map (fun B => (create_frame B).data), []) :=
  c4_stream_roundtrip [[0x28, 0x00, 0xEA]]
    [[0xC8, 0x04], [0x28], [0x00, 0xEA, 0x54]] (by decide) (by decide)

/-- The head of a dropWhile result fails the predicate. -/
theorem dropWhile_head_false (p : Nat → Bool) : ∀ (l : List Nat) (a : Nat)
    (t : List Nat), l.dropWhile p = a :: t → p a = false := by
  intro l
  induction l with
  | nil => intro a t h; simp [List.dropWhile] at h
  | cons x xs ih =>
    intro a t h
    by_cases hx : p x
    · rw [List.dropWhile_cons_of_pos hx] at h
      exact ih a t h
    · rw [List.dropWhile_cons_of_neg hx] at h
      cases h
      simpa using hx

/-- Every frame in the output of digestAux satisfies the frame
invariants: the parser only emits what it has just validated. -/
theorem digestAux_inv : ∀ (fuel : Nat) (buf fr : List Nat),
    fr ∈ (digestAux fuel buf).1 → frameInv fr := by
  intro fuel
  induction fuel with
  | zero => intro buf fr h; simp [digestAux] at h
  | succ fuel ih =>
    intro buf fr h
    simp only [digestAux] at h
    by_cases h4 : 4 ≤ buf.length
    · rw [if_pos h4] at h
      set buf1 := buf.dropWhile (fun b => b ≠ 0xC8) with hb1
      by_cases h1 : 1 < buf1.length
      · rw [if_pos h1] at h
        by_cases hf : buf1.getD 1 0 + 2 ≤ buf1.length
        · rw [if_pos hf] at h
          by_cases hc : buf1.getD (buf1.getD 1 0 + 2 - 1) 0
              = calc_crc8 ((buf1.take (buf1.getD 1 0 + 2 - 1)).drop 2)
          · rw [if_pos hc] at h
            simp only [List.mem_cons] at h
            rcases h with rfl | h
            · -- the newly emitted frame
              have hne : buf1 ≠ [] := by
                intro hnil; rw [hnil] at h1; simp at h1
              obtain ⟨a, t, hat⟩ := List.exists_cons_of_ne_nil hne
              have hpa : decide (a ≠ 0xC8) = false :=
                dropWhile_head_false _ buf a t (hb1.symm.trans hat)
              have ha : a = 0xC8 := by simpa using hpa
              have hhead : buf1.getD 0 0 = 0xC8 := by
                rw [hat, List.getD_cons_zero, ha]
              have hfl2 : 2 ≤ buf1.getD 1 0 + 2 := by omega
              have hlen_take : (buf1.take (buf1.getD 1 0 + 2)).length
                  = buf1.getD 1 0 + 2 := by
                rw [List.length_take]
                exact min_eq_left hf
              have hget0 : (buf1.take (buf1.getD 1 0 + 2)).getD 0 0
                  = buf1.getD 0 0 := by
                rw [List.getD_eq_getElem?_getD, List.getElem?_take,
                  if_pos (by omega), ← List.getD_eq_getElem?_getD]
              have hget1 : (buf1.take (buf1.getD 1 0 + 2)).getD 1 0
                  = buf1.getD 1 0 := by
                rw [List.getD_eq_getElem?_getD, List.getElem?_take,
                  if_pos (by omega), ← List.getD_eq_getElem?_getD]
              refine ⟨?_, ?_, ?_⟩
              · rw [hget0, hhead]
              · rw [hlen_take, hget1]
              · rw [hlen_take]
                have hgetl : (buf1.take (buf1.getD 1 0 + 2)).getD
                    (buf1.getD 1 0 + 2 - 1) 0
                    = buf1.getD (buf1.getD 1 0 + 2 - 1) 0 := by
                  rw [List.getD_eq_getElem?_getD, List.getElem?_take,
                    if_pos (by omega), ← List.getD_eq_getElem?_getD]
                have htt : (buf1.take (buf1.getD 1 0 + 2)).take
                    (buf1.getD 1 0 + 2 - 1)
                    = buf1.take (buf1.getD 1 0 + 2 - 1) := by
                  rw [List.take_take, min_eq_left (by omega)]
                rw [hgetl, htt, hc]
            · exact ih _ fr h
          · rw [if_neg hc] at h
            exact ih _ fr h
        · rw [if_neg hf] at h; simp at h
      · rw [if_neg h1] at h; simp at h
    · rw [if_neg h4] at h; simp at h

/-- Claim C10: every frame yielded by crsf_parser.digest satisfies the
frame invariants: first byte SYNC = 0xC8, total length equal to the LEN
byte plus two, and the trailing byte equal to the CRC8 (polynomial 0xD5,
zero init, one extra zero byte at finish) of the bytes in between. -/
theorem c10_emitted_frame_invariants (st input fr : List Nat)
    (h : fr ∈ (parserDigest st input).1) : frameInv fr :=
  digestAux_inv (st ++ input).length (st ++ input) fr h

/-- A SYNC-led buffer announcing a frame whose CRC check fails makes the
parser discard exactly one byte. -/
theorem digestLoop_mismatch (B rest : List Nat)
    (h4 : 4 ≤ B.length)
    (hsync : B.getD 0 0 = 0xC8)
    (hlen : B.getD 1 0 + 2 = B.length)
    (hbad : B.getD (B.length - 1) 0
      ≠ calc_crc8 ((B.take (B.length - 1)).drop 2)) :
    digestLoop (B ++ rest) = digestLoop (B.tail ++ rest) := by
  rcases B with _ | ⟨b0, B'⟩
  · simp at h4
  · have hb0 : b0 = 0xC8 := by simpa [List.getD_cons_zero] using hsync
    subst hb0
    rw [digestLoop_eq]
    have h4' : 4 ≤ ((0xC8 :: B') ++ rest).length := by
      simp only [List.length_append]; omega
    have hdw : ((0xC8 :: B') ++ rest).dropWhile (fun b => b ≠ 0xC8)
        = (0xC8 :: B') ++ rest := by
      rw [List.cons_append, List.dropWhile_cons_of_neg]
      simp
    simp only [if_pos h4', hdw]
    have hlt : 1 < ((0xC8 :: B') ++ rest).length := by
      simp only [List.length_append]; omega
    rw [if_pos hlt]
    have hget1 : ((0xC8 :: B') ++ rest).getD 1 0 = (0xC8 :: B').getD 1 0 := by
      simp only [List.getD_eq_getElem?_getD]
      rw [List.getElem?_append_left (by simp at h4 ⊢; omega)]
    have hflen : ((0xC8 :: B') ++ rest).getD 1 0 + 2 = (0xC8 :: B').length := by
      rw [hget1, hlen]
    rw [hflen]
    rw [if_pos (by simp only [List.length_append]; omega)]
    have hgetLast : ((0xC8 :: B') ++ rest).getD ((0xC8 :: B').length - 1) 0
        = (0xC8 :: B').getD ((0xC8 :: B').length - 1) 0 := by
      simp only [List.getD_eq_getElem?_getD]
      rw [List.getElem?_append_left (by simp)]
    have htake : (((0xC8 :: B') ++ rest).take ((0xC8 :: B').length - 1)).drop 2
        = ((0xC8 :: B').take ((0xC8 :: B').length - 1)).drop 2 := by
      rw [List.take_append_eq_append_take]
      have : (0xC8 :: B').length - 1 - (0xC8 :: B').length = 0 := by omega
      rw [this, List.take_zero, List.append_nil]
    rw [hgetLast, htake, if_neg hbad]
    rw [List.cons_append, List.drop_succ_cons, List.drop_zero]
    rfl

/-- Claim C6 (amended): noise containing no SYNC byte before a
well-formed frame still yields exactly that frame; and a frame whose CRC
byte has one flipped bit yields no frame — provided no interior byte of
the corrupted frame equals SYNC, the parser resynchronises and the
following well-formed frame is still recovered. (The original claim over
arbitrary noise is refuted separately: noise may itself parse as a frame
that swallows the start of F.) -/
theorem c6_noise_and_crc_flip :
    (∀ (N F : List Nat), (∀ b ∈ N, b ≠ 0xC8) → wfFrame F →
       digestLoop (N ++ F) = ([F], [])) ∧
    (∀ (F G : List Nat) (bit : Nat), bit < 8 → wfFrame F → wfFrame G →
       (∀ b ∈ (F.dropLast ++ [F.getD (F.length - 1) 0 ^^^ 1 <<< bit]).tail,
         b ≠ 0xC8) →
       digestLoop ((F.dropLast ++ [F.getD (F.length - 1) 0 ^^^ 1 <<< bit]) ++ G)
         = ([G], [])) := by
  have hsingle : ∀ (F : List Nat), wfFrame F → digestLoop F = ([F], []) := by
    intro F hF
    have h := digestLoop_stream [F] [] (by simpa using hF) pendingBuf_nil
    simpa using h
  constructor
  · intro N F hN hF
    rw [digestLoop_strip N F hN hF.1]
    exact hsingle F hF
  · intro F G bit hbit hF hG htail
    obtain ⟨h4, hsync, hlen, hcrc⟩ := hF
    have hFne : F ≠ [] := by
      intro hx; rw [hx] at h4; simp at h4
    have hLlen : F.dropLast.length = F.length - 1 := List.length_dropLast F
    have hL0 : F.dropLast.getD 0 0 = F.getD 0 0 := by
      rw [List.dropLast_eq_take, List.getD_eq_getElem?_getD,
        List.getElem?_take, if_pos (by omega), ← List.getD_eq_getElem?_getD]
    have hL1 : F.dropLast.getD 1 0 = F.getD 1 0 := by
      rw [List.dropLast_eq_take, List.getD_eq_getElem?_getD,
        List.getElem?_take, if_pos (by omega), ← List.getD_eq_getElem?_getD]
    have hBlen : (F.dropLast ++ [F.getD (F.length - 1) 0 ^^^ 1 <<< bit]).length
        = F.length := by
      rw [List.length_append, hLlen]
      show F.length - 1 + 1 = F.length
      omega
    have hBsync : (F.dropLast ++ [F.getD (F.length - 1) 0 ^^^ 1 <<< bit]).getD
        0 0 = 0xC8 := by
      rw [List.getD_eq_getElem?_getD,
        List.getElem?_append_left (by rw [hLlen]; omega),
        ← List.getD_eq_getElem?_getD, hL0, hsync]
    have hBlen1 : (F.dropLast ++ [F.getD (F.length - 1) 0 ^^^ 1 <<< bit]).getD
        1 0 + 2 = (F.dropLast ++ [F.getD (F.length - 1) 0 ^^^ 1 <<< bit]).length := by
      rw [List.getD_eq_getElem?_getD,
        List.getElem?_append_left (by rw [hLlen]; omega),
        ← List.getD_eq_getElem?_getD, hL1, hBlen, hlen]
    have hBlast : (F.dropLast ++ [F.getD (F.length - 1) 0 ^^^ 1 <<< bit]).getD
        ((F.dropLast ++ [F.getD (F.length - 1) 0 ^^^ 1 <<< bit]).length - 1) 0
        = F.getD (F.length - 1) 0 ^^^ 1 <<< bit := by
      rw [hBlen]
      have hidx : F.length - 1 = F.dropLast.length := by omega
      rw [List.getD_eq_getElem?_getD, hidx, List.getElem?_concat_length]
      rfl
    have hBtake : ((F.dropLast ++ [F.getD (F.length - 1) 0 ^^^ 1 <<< bit]).take
        ((F.dropLast ++ [F.getD (F.length - 1) 0 ^^^ 1 <<< bit]).length - 1)).drop 2
        = (F.take (F.length - 1)).drop 2 := by
      rw [hBlen]
      have hidx : F.length - 1 = F.dropLast.length := by omega
      rw [hidx, List.take_left, List.dropLast_eq_take]
      rw [List.length_take, min_eq_left (by omega)]
    have hBbad : (F.dropLast ++ [F.getD (F.length - 1) 0 ^^^ 1 <<< bit]).getD
        ((F.dropLast ++ [F.getD (F.length - 1) 0 ^^^ 1 <<< bit]).length - 1) 0
        ≠ calc_crc8 (((F.dropLast ++ [F.getD (F.length - 1) 0 ^^^ 1 <<< bit]).take
          ((F.dropLast ++ [F.getD (F.length - 1) 0 ^^^ 1 <<< bit]).length - 1)).drop 2) := by
      rw [hBlast, hBtake, ← hcrc]
      intro heq
      have h2 : F.getD (F.length - 1) 0
          ^^^ (F.getD (F.length - 1) 0 ^^^ 1 <<< bit)
          = F.getD (F.length - 1) 0 ^^^ F.getD (F.length - 1) 0 :=
        congrArg (fun z => F.getD (F.length - 1) 0 ^^^ z) heq
      rw [← Nat.xor_assoc, Nat.xor_self, Nat.zero_xor] at h2
      have h3 : 1 <<< bit ≠ 0 := by
        rw [Nat.one_shiftLeft]; positivity
      exact h3 h2
    rw [digestLoop_mismatch _ G (by rw [hBlen]; omega) hBsync hBlen1 hBbad]
    have htl : (F.dropLast ++ [F.getD (F.length - 1) 0 ^^^ 1 <<< bit]).tail ++ G
        = ((F.dropLast ++ [F.getD (F.length - 1) 0 ^^^ 1 <<< bit]).tail) ++ G :=
      rfl
    rw [digestLoop_strip _ G htail hG.1]
    exact hsingle G hG

/-- Counterexample to C6 as stated: three bytes of noise that themselves
validate as a two-byte-payload frame whose CRC position falls on the SYNC
byte of the real PING frame; the PING frame is consumed and never
yielded. -/
theorem c6_counterexample_noise :
    wfFrame [0xC8, 0x04, 0x28, 0x00, 0xEA, 0x54] ∧
    digestLoop ([0xC8, 0x02, 0xAB] ++ [0xC8, 0x04, 0x28, 0x00, 0xEA, 0x54])
      = ([[0xC8, 0x02, 0xAB, 0xC8]], []) ∧
    [0xC8, 0x04, 0x28, 0x00, 0xEA, 0x54]
      ∉ (digestLoop ([0xC8, 0x02, 0xAB]
          ++ [0xC8, 0x04, 0x28, 0x00, 0xEA, 0x54])).1 := by
  refine ⟨by decide, by decide, by decide⟩

/-- Witness for the amended C6 at concrete inputs. -/
theorem c6_noise_and_crc_flip_witness :
    digestLoop ([1, 2, 3] ++ [0xC8, 0x04, 0x28, 0x00, 0xEA, 0x54])
      = ([[0xC8, 0x04, 0x28, 0x00, 0xEA, 0x54]], []) ∧
    digestLoop (([0xC8, 0x04, 0x28, 0x00, 0xEA, 0x54].dropLast
        ++ [[0xC8, 0x04, 0x28, 0x00, 0xEA, 0x54].getD
              ([0xC8, 0x04, 0x28, 0x00, 0xEA, 0x54].length - 1) 0 ^^^ 1 <<< 0])
        ++ [0xC8, 0x04, 0x28, 0x00, 0xEA, 0x54])
      = ([[0xC8, 0x04, 0x28, 0x00, 0xEA, 0x54]], []) :=
  ⟨c6_noise_and_crc_flip.1 [1, 2, 3] [0xC8, 0x04, 0x28, 0x00, 0xEA, 0x54]
     (by decide) (by decide),
   c6_noise_and_crc_flip.2 [0xC8, 0x04, 0x28, 0x00, 0xEA, 0x54]
     [0xC8, 0x04, 0x28, 0x00, 0xEA, 0x54] 0 (by decide) (by decide) (by decide)
     (by decide)⟩

/-- Claim C7 counterexample: the seven bytes of the spec scenario carry a
spurious 0xC8 where the CRC byte of the six-byte PING frame should sit;
the parser finds a CRC mismatch, discards one byte, strips the rest and
yields no frame at all (two bytes stay pending). -/
theorem c7_counterexample_seven_bytes :
    digestLoop [0xC8, 0x04, 0x28, 0x00, 0xEA, 0xC8, 0x54]
      = ([], [0xC8, 0x54]) := by decide

/-- Claim C7 (amended): the six-byte PING frame [0xC8, 0x04, 0x28, 0x00,
0xEA, 0x54] yields exactly one frame with type 0x28, destination 0x00,
origin 0xEA and is_extended true. -/
theorem c7_amended_ping_parse :
    digestLoop [0xC8, 0x04, 0x28, 0x00, 0xEA, 0x54]
      = ([[0xC8, 0x04, 0x28, 0x00, 0xEA, 0x54]], []) ∧
    (crsf_frame.mk [0xC8, 0x04, 0x28, 0x00, 0xEA, 0x54]).type = 0x28 ∧
    (crsf_frame.mk [0xC8, 0x04, 0x28, 0x00, 0xEA, 0x54]).destination
      = some 0x00 ∧
    (crsf_frame.mk [0xC8, 0x04, 0x28, 0x00, 0xEA, 0x54]).origin = some 0xEA ∧
    (crsf_frame.mk [0xC8, 0x04, 0x28, 0x00, 0xEA, 0x54]).is_extended = true := by
  refine ⟨by decide, by decide, by decide, by decide, by decide⟩

/-- Claim C5: the negative branch of CRSF.decode_int32 is an arithmetic
no-op on Python unbounded integers, so an all-ones input decodes to the
positive unsigned value 4294967295 instead of -1, and the round trip
through encode_int32 fails for -1. -/
theorem c5_decode_int32_not_signed :
    CRSF.decode_int32 [0xFF, 0xFF, 0xFF, 0xFF] = some 4294967295 ∧
    CRSF.decode_int32 (CRSF.encode_int32 (-1)) = some 4294967295 ∧
    ¬ (4294967295 : Int) < 0 := by
  refine ⟨by decide, by decide, by decide⟩

set_option maxRecDepth 8000 in
/-- Claim C8: ppm_channels_decode on a 22-byte payload returns fifteen
channel values, not sixteen — the iteration range(len-11, 0, -11) stops
before bit offset 0 and drops the sixteenth channel. All-zero ticks map
to (0 - 992)*5//8 + 1500 = 880. -/
theorem c8_ppm_decode_fifteen :
    ppm_channels_decode (List.replicate 22 0)
      = some (List.replicate 15 880) := by decide

/-- Claim C1: with decimal_point = 2 the source quantises by
get_float_decimal = 0.001 (one zero too many), so encoding 3.14 yields
round(3140) = 3140, which fails the range check against [0, 1000]:
encode_float returns None and no PARAM_WRITE value is produced, instead
of the claimed 314. -/
theorem c1_encode_float_off_by_ten :
    CRSFParam.get_float_decimal
        { CRSFParam.init 1 with decimal_point := some 2 } = 1 / 1000 ∧
    CRSFParam.encode_float
        { CRSFParam.init 1 with decimal_point := some 2, min := some 0, max := some 1000 }
        (157 / 50) = some none := by
  have hdec : CRSFParam.get_float_decimal
      { CRSFParam.init 1 with decimal_point := some 2 } = 1 / 1000 := by
    rw [CRSFParam.get_float_decimal]
    norm_num
  have hdec2 : CRSFParam.get_float_decimal
      { CRSFParam.init 1 with decimal_point := some 2, min := some 0, max := some 1000 }
      = 1 / 1000 := by
    rw [CRSFParam.get_float_decimal]
    norm_num
  refine ⟨hdec, ?_⟩
  rw [CRSFParam.encode_float, hdec2]
  have hq : (157 / 50 : ℚ) / (1 / 1000) = 3140 := by norm_num
  rw [hq]
  have hr : CRSFParam.pyRound 3140 = 3140 := by
    rw [CRSFParam.pyRound]
    norm_num
  rw [hr]
  rfl

/-- A PARAM_ENTRY frame carries type 0x2B. -/
theorem param_entry_frame_type (d o : Nat) (body : List Nat) :
    (param_entry_frame d o body).type = 0x2B := rfl

/-- The payload of a built PARAM_ENTRY frame is its body. -/
theorem param_entry_frame_payload (d o : Nat) (body : List Nat) :
    (param_entry_frame d o body).payload = body := by
  have hext : (param_entry_frame d o body).is_extended = true := rfl
  show ((param_entry_frame d o body).data.drop
    (if (param_entry_frame d o body).is_extended then 5 else 3)).dropLast = body
  rw [hext, if_pos rfl]
  show (((0x2B :: d :: o :: body) ++ [calc_crc8 (0x2B :: d :: o :: body)]).drop 3).dropLast
      = body
  rw [List.cons_append, List.cons_append, List.cons_append,
    List.drop_succ_cons, List.drop_succ_cons, List.drop_succ_cons,
    List.drop_zero, List.dropLast_concat]

/-- process_frame on a built PARAM_ENTRY frame runs the payload
processor. -/
theorem process_frame_param_entry (p : CRSFParam) (d o : Nat)
    (body : List Nat) (now : ℚ) :
    CRSFParam.process_frame p (param_entry_frame d o body) now
      = CRSFParam.process_entry p body now := by
  rw [CRSFParam.process_frame,
    if_neg (by rw [param_entry_frame_type]; simp), param_entry_frame_payload]

/-- Claim C2 counterexample: a first chunk for parameter 5 followed by a
terminal chunk whose param_num byte is 6 fails the buffer validation, and
the chunk buffer is NOT cleared: both slots stay filled (the terminal
payload overwrites the last slot), refuting the claimed clearing. -/
theorem c2_counterexample_buffer_kept :
    (processFrameSeq (CRSFParam.init 5)
        [param_entry_frame 0xC8 0xEA [5, 1, 77],
         param_entry_frame 0xC8 0xEA [6, 0, 88]] 1).map CRSFParam.chunks
      = some [some [5, 1, 77], some [6, 0, 88]] ∧
    (processFrameSeq (CRSFParam.init 5)
        [param_entry_frame 0xC8 0xEA [5, 1, 77],
         param_entry_frame 0xC8 0xEA [6, 0, 88]] 1).map CRSFParam.chunks
      ≠ some [] := by
  refine ⟨by decide, by decide⟩

/-- Claim C2 (amended): when process_frame receives a terminal chunk
(chunks_remaining = 0) while a chunk buffer is pending and the buffer
fails validation, the frame is dropped without decoding: every decoded
field and obtained_time keep their previous values, but the chunk buffer
is NOT cleared — it keeps its slots, with the terminal payload written
into the last slot. -/
theorem c2_invalid_chunks_keep_buffer (p : CRSFParam) (payload : List Nat)
    (d o pn : Nat) (now : ℚ)
    (h0 : payload.get? 0 = some pn) (h1 : payload.get? 1 = some 0)
    (hpend : p.chunks ≠ [])
    (hviol : CRSFParam.chunksValid p.num
        (p.chunks.set (p.chunks.length - 1) (some payload)) = some false) :
    CRSFParam.process_frame p (param_entry_frame d o payload) now
      = some { p with chunks := p.chunks.set (p.chunks.length - 1) (some payload) } := by
  rw [process_frame_param_entry]
  rw [CRSFParam.process_entry]
  have hie : p.chunks.isEmpty = false := by
    cases hc : p.chunks with
    | nil => exact absurd hc hpend
    | cons a l => rfl
  simp only [h0, h1, Option.some_bind, hie, hviol]
  simp

/-- Witness for the amended C2 at a concrete invalid chunk pair. -/
theorem c2_invalid_chunks_keep_buffer_witness :
    CRSFParam.process_frame
        { CRSFParam.init 5 with chunks := [some [5, 1, 77], none] }
        (param_entry_frame 0xC8 0xEA [6, 0, 88]) 1
      = some { CRSFParam.init 5 with
          chunks := [some [5, 1, 77], none].set 1 (some [6, 0, 88]) } :=
  c2_invalid_chunks_keep_buffer
    { CRSFParam.init 5 with chunks := [some [5, 1, 77], none] }
    [6, 0, 88] 0xC8 0xEA 6 1 (by decide) (by decide) (by decide) (by decide)

/-- Claim C9: PARAM_ENTRY payloads whose tail is shorter than the
declared kind requires raise an uncaught exception out of process_frame
(modelled as none) instead of being dropped and logged: a STRING entry
ending right after its value NUL (no max_length byte) raises IndexError,
and a TEXT_SELECTION entry with no bytes after its options NUL raises
ValueError at the four-byte unpack. -/
theorem c9_short_tail_raises :
    CRSFParam.process_frame (CRSFParam.init 7)
        (param_entry_frame 0xC8 0xEA [7, 0, 0, 10, 110, 0, 118, 0]) 1
      = none ∧
    CRSFParam.process_frame (CRSFParam.init 7)
        (param_entry_frame 0xC8 0xEA [7, 0, 0, 9, 65, 0, 111, 0]) 1
      = none := by
  refine ⟨by decide, by decide⟩

/-- Replacing the chunks field by its own value is the identity. -/
theorem CRSFParam.update_chunks_self (q : CRSFParam)
    (x : List (Option (List Nat))) (h : q.chunks = x) :
    { q with chunks := x } = q := by
  cases q
  simp only [CRSFParam.mk.injEq] at h ⊢
  simp_all

/-- Setting the element just after a prefix. -/
theorem set_append_length {α : Type} : ∀ (pre : List α) (X : List α) (v : α),
    (pre ++ X).set pre.length v = pre ++ X.set 0 v := by
  intro pre
  induction pre with
  | nil => intro X v; rfl
  | cons a l ih =>
    intro X v
    simp only [List.cons_append, List.length_cons, List.set_cons_succ]
    rw [ih]

theorem chunkFrames_length (pn : Nat) : ∀ (cs : List (List Nat)),
    (chunkFrames pn cs).length = cs.length := by
  intro cs
  induction cs with
  | nil => rfl
  | cons c cs ih => simp [chunkFrames, ih]

theorem storedChunks_length (pn : Nat) : ∀ (cs : List (List Nat)),
    (storedChunks pn cs).length = cs.length := by
  intro cs
  induction cs with
  | nil => rfl
  | cons c cs ih => simp [storedChunks, ih]

/-- A fully stored chunk buffer is the chunk payload list, slotwise. -/
theorem chunkFrames_map_some (pn : Nat) : ∀ (cs : List (List Nat))
    (cl : List Nat),
    (chunkFrames pn (cs ++ [cl])).map some
      = storedChunks pn cs ++ [some (pn :: 0 :: cl)] := by
  intro cs
  induction cs with
  | nil => intro cl; rfl
  | cons c cs ih =>
    intro cl
    show (chunkFrames pn (c :: (cs ++ [cl]))).map some = _
    simp only [chunkFrames, List.map_cons, ih cl, storedChunks]
    have hl : (cs ++ [cl]).length = cs.length + 1 := by simp
    rw [hl]
    simp

theorem chunkFrames_mapM_get1 (pn : Nat) : ∀ (cs : List (List Nat)),
    (chunkFrames pn cs).mapM (fun c => c.get? 1)
      = some (List.range cs.length).reverse := by
  intro cs
  induction cs with
  | nil => rfl
  | cons c cs ih =>
    simp only [chunkFrames, List.mapM_cons, ih]
    simp [List.range_succ]

theorem chunkFrames_mapM_get0 (pn : Nat) : ∀ (cs : List (List Nat)),
    (chunkFrames pn cs).mapM (fun c => c.get? 0)
      = some (List.replicate cs.length pn) := by
  intro cs
  induction cs with
  | nil => rfl
  | cons c cs ih =>
    simp only [chunkFrames, List.mapM_cons, ih]
    simp [List.replicate_succ]

theorem countP_replicate_self (num : Nat) : ∀ (n : Nat),
    (List.replicate n num).countP (fun b => b = num) = n := by
  intro n
  induction n with
  | zero => rfl
  | succ n ih => simp [List.replicate_succ, List.countP_cons, ih]

theorem chunkFrames_drop2 (pn : Nat) : ∀ (cs : List (List Nat)),
    (chunkFrames pn cs).map (fun f => f.drop 2) = cs := by
  intro cs
  induction cs with
  | nil => rfl
  | cons c cs ih => simp [chunkFrames, ih]

/-- A fully and correctly stored chunk buffer passes the validity
check. -/
theorem chunksValid_chunkFrames (pn : Nat) (cs : List (List Nat)) :
    CRSFParam.chunksValid pn ((chunkFrames pn cs).map some) = some true := by
  rw [CRSFParam.chunksValid]
  have hany : ((chunkFrames pn cs).map some).any Option.isNone = false := by
    simp [List.any_map, Function.comp]
  rw [hany]
  have hmap : ((chunkFrames pn cs).map some).map (fun c => c.getD [])
      = chunkFrames pn cs := by
    rw [List.map_map]
    simp [Function.comp_def]
  simp only [Bool.false_eq_true, if_false, hmap, chunkFrames_mapM_get1,
    chunkFrames_mapM_get0]
  rw [List.reverse_reverse, List.length_map, chunkFrames_length]
  simp [countP_replicate_self]

/-- Processing a non-terminal chunk stores its payload in the slot just
after the already filled prefix of the buffer. -/
theorem process_entry_store (q : CRSFParam) (pn r : Nat) (c : List Nat)
    (now : ℚ) (pre : List (Option (List Nat)))
    (hch : q.chunks = pre ++ List.replicate (r + 1) none)
    (hr : r ≠ 0) :
    CRSFParam.process_entry q (pn :: r :: c) now
      = some { q with
          chunks := pre ++ (some (pn :: r :: c) :: List.replicate r none) } := by
  rw [CRSFParam.process_entry]
  simp only [List.get?_cons_zero, List.get?_cons_succ, Option.bind_eq_bind,
    Option.some_bind]
  rw [if_pos hr]
  have hie : q.chunks.isEmpty = false := by
    rw [hch]; cases pre <;> simp [List.replicate_succ]
  rw [hie]
  simp only [Bool.false_eq_true, if_false]
  rw [if_pos (show r + 1 ≤ q.chunks.length by
    rw [hch]; simp only [List.length_append, List.length_replicate]; omega)]
  rw [hch]
  have hpos : (pre ++ List.replicate (r + 1) (none : Option (List Nat))).length
      - (r + 1) = pre.length := by
    simp only [List.length_append, List.length_replicate]
    omega
  rw [hpos, set_append_length, List.replicate_succ, List.set_cons_zero]
  rfl

/-- Processing a first non-terminal chunk with no pending buffer
allocates the buffer and stores the payload in slot 0. -/
theorem process_entry_store_fresh (q : CRSFParam) (pn r : Nat) (c : List Nat)
    (now : ℚ) (hch : q.chunks = []) (hr : r ≠ 0) :
    CRSFParam.process_entry q (pn :: r :: c) now
      = some { q with
          chunks := some (pn :: r :: c) :: List.replicate r none } := by
  rw [CRSFParam.process_entry]
  simp only [List.get?_cons_zero, List.get?_cons_succ, Option.bind_eq_bind,
    Option.some_bind]
  rw [if_pos hr]
  have hie : q.chunks.isEmpty = true := by rw [hch]; rfl
  rw [hie]
  simp only [if_true]
  rw [if_pos (show r + 1
    ≤ (List.replicate (r + 1) (none : Option (List Nat))).length by simp)]
  have hpos : (List.replicate (r + 1) (none : Option (List Nat))).length
      - (r + 1) = 0 := by simp
  rw [hpos, List.replicate_succ, List.set_cons_zero]
  rfl

/-- Feeding the remaining non-terminal chunks and then handing over to
the terminal call: the buffer accumulates slot by slot. -/
theorem feed_chunks_aux : ∀ (cs : List (List Nat)) (cl : List Nat)
    (q : CRSFParam) (pre : List (Option (List Nat))) (pn : Nat) (now : ℚ),
    q.chunks = pre ++ List.replicate (cs.length + 1) none →
    CRSFParam.processSeq q (chunkFrames pn (cs ++ [cl])) now
      = CRSFParam.process_entry
          { q with chunks := pre ++ (storedChunks pn cs ++ [none]) }
          (pn :: 0 :: cl) now := by
  intro cs
  induction cs with
  | nil =>
    intro cl q pre pn now hch
    show CRSFParam.processSeq q [pn :: 0 :: cl] now = _
    have h1 : CRSFParam.processSeq q [pn :: 0 :: cl] now
        = CRSFParam.process_entry q (pn :: 0 :: cl) now := by
      unfold CRSFParam.processSeq
      simp only [List.foldlM_cons, List.foldlM_nil, bind_pure]
    rw [h1]
    have h2 : ({ q with chunks := pre ++ (storedChunks pn [] ++ [none]) }
        : CRSFParam) = q := by
      apply CRSFParam.update_chunks_self
      rw [hch]
      rfl
    rw [h2]
  | cons c cs ih =>
    intro cl q pre pn now hch
    show CRSFParam.processSeq q
      ((pn :: (cs ++ [cl]).length :: c) :: chunkFrames pn (cs ++ [cl])) now = _
    have hlen : (cs ++ [cl]).length = cs.length + 1 := by simp
    have hstep := process_entry_store q pn (cs ++ [cl]).length c now pre
      (by rw [hch]; simp) (by rw [hlen]; omega)
    unfold CRSFParam.processSeq
    rw [List.foldlM_cons, hstep]
    simp only [Option.bind_eq_bind, Option.some_bind]
    have hih := ih cl
      { q with chunks := pre ++ (some (pn :: (cs ++ [cl]).length :: c)
          :: List.replicate (cs ++ [cl]).length none) }
      (pre ++ [some (pn :: (cs ++ [cl]).length :: c)]) pn now
      (by
        show pre ++ (some (pn :: (cs ++ [cl]).length :: c)
            :: List.replicate (cs ++ [cl]).length none)
          = (pre ++ [some (pn :: (cs ++ [cl]).length :: c)])
            ++ List.replicate (cs.length + 1) none
        rw [hlen, List.append_assoc]
        rfl)
    unfold CRSFParam.processSeq at hih
    rw [hih]
    have hst : (pre ++ [some (pn :: (cs ++ [cl]).length :: c)])
        ++ (storedChunks pn cs ++ [none])
        = pre ++ (storedChunks pn (c :: cs) ++ [none]) := by
      rw [hlen]
      show (pre ++ [some (pn :: (cs.length + 1) :: c)])
          ++ (storedChunks pn cs ++ [none])
        = pre ++ ((some (pn :: (cs.length + 1) :: c) :: storedChunks pn cs)
            ++ [none])
      rw [List.append_assoc]
      rfl
    rw [← hst]

/-- Processing the terminal chunk over a pending buffer whose validation
succeeds: the buffer is cleared and the reassembled payload decoded. -/
theorem process_entry_terminal (q : CRSFParam) (pn : Nat) (cl : List Nat)
    (now : ℚ) (A : List (Option (List Nat))) (L : List (List Nat))
    (hch : q.chunks = A ++ [none])
    (hL : A ++ [some (pn :: 0 :: cl)] = L.map some)
    (hvalid : CRSFParam.chunksValid q.num (L.map some) = some true) :
    CRSFParam.process_entry q (pn :: 0 :: cl) now
      = CRSFParam.decode_entry { q with chunks := [] }
          (((((L.map some).headD none).getD []).take 2
            ++ ((L.map some).map (fun c => (c.getD []).drop 2)).flatten).drop 2)
          0 now := by
  rw [CRSFParam.process_entry]
  simp only [List.get?_cons_zero, List.get?_cons_succ, Option.bind_eq_bind,
    Option.some_bind]
  rw [if_neg (show ¬ (0 : Nat) ≠ 0 by omega)]
  have hie : q.chunks.isEmpty = false := by
    rw [hch]; cases A <;> rfl
  rw [if_pos (show ¬ q.chunks.isEmpty = true by rw [hie]; simp)]
  have hset : q.chunks.set (q.chunks.length - 1) (some (pn :: 0 :: cl))
      = L.map some := by
    rw [hch]
    have h1 : (A ++ [(none : Option (List Nat))]).length - 1 = A.length := by
      simp
    rw [h1, set_append_length, List.set_cons_zero, hL]
  rw [hset, hvalid]

/-- Chunked delivery leaves the parameter in exactly the state of the
single-frame delivery: the reassembled payload differs from the
single-frame payload only in its second byte, which the decode never
reads. -/
theorem process_chunked_eq_single (p : CRSFParam) (pieces : List (List Nat))
    (pn : Nat) (now : ℚ) (hfresh : p.chunks = []) (hnum : pn = p.num)
    (hne : pieces ≠ []) :
    CRSFParam.processSeq p (chunkFrames pn pieces) now
      = CRSFParam.process_entry p (pn :: 0 :: pieces.flatten) now := by
  have hsingle : CRSFParam.process_entry p (pn :: 0 :: pieces.flatten) now
      = CRSFParam.decode_entry p pieces.flatten 0 now := by
    rw [CRSFParam.process_entry]
    simp only [List.get?_cons_zero, List.get?_cons_succ, Option.bind_eq_bind,
      Option.some_bind]
    rw [if_neg (show ¬ (0 : Nat) ≠ 0 by omega)]
    rw [if_neg (show ¬ ¬ p.chunks.isEmpty = true by rw [hfresh]; simp)]
    rfl
  rw [hsingle]
  rcases pieces with _ | ⟨c0, rest⟩
  · exact absurd rfl hne
  rcases hrest : rest with _ | ⟨r0, rs⟩
  · -- a single terminal chunk: trivial case, no buffering at all
    show CRSFParam.processSeq p [pn :: 0 :: c0] now = _
    have h1 : CRSFParam.processSeq p [pn :: 0 :: c0] now
        = CRSFParam.process_entry p (pn :: 0 :: c0) now := by
      unfold CRSFParam.processSeq
      simp only [List.foldlM_cons, List.foldlM_nil, bind_pure]
    rw [h1, CRSFParam.process_entry]
    simp only [List.get?_cons_zero, List.get?_cons_succ, Option.bind_eq_bind,
      Option.some_bind]
    rw [if_neg (show ¬ (0 : Nat) ≠ 0 by omega)]
    rw [if_neg (show ¬ ¬ p.chunks.isEmpty = true by rw [hfresh]; simp)]
    show CRSFParam.decode_entry p c0 0 now
        = CRSFParam.decode_entry p ([c0] : List (List Nat)).flatten 0 now
    rw [show ([c0] : List (List Nat)).flatten = c0 by simp]
  · -- at least two chunks
    subst hrest
    have hrne : (r0 :: rs) ≠ [] := by simp
    show CRSFParam.processSeq p
      ((pn :: (r0 :: rs).length :: c0) :: chunkFrames pn (r0 :: rs)) now = _
    have hstep1 := process_entry_store_fresh p pn (r0 :: rs).length c0 now
      hfresh (by simp)
    unfold CRSFParam.processSeq
    rw [List.foldlM_cons, hstep1]
    simp only [Option.bind_eq_bind, Option.some_bind]
    have hmid : r0 :: rs = (r0 :: rs).dropLast ++ [(r0 :: rs).getLast hrne] :=
      (List.dropLast_append_getLast hrne).symm
    have hch1 : ({ p with chunks := some (pn :: (r0 :: rs).length :: c0)
          :: List.replicate (r0 :: rs).length none } : CRSFParam).chunks
        = [some (pn :: (r0 :: rs).length :: c0)]
          ++ List.replicate ((r0 :: rs).dropLast.length + 1) none := by
      show some (pn :: (r0 :: rs).length :: c0)
          :: List.replicate (r0 :: rs).length none = _
      have hl : (r0 :: rs).dropLast.length + 1 = (r0 :: rs).length := by
        rw [List.length_dropLast]
        simp
      rw [hl]
      rfl
    have haux := feed_chunks_aux (r0 :: rs).dropLast ((r0 :: rs).getLast hrne)
      { p with chunks := some (pn :: (r0 :: rs).length :: c0)
          :: List.replicate (r0 :: rs).length none }
      [some (pn :: (r0 :: rs).length :: c0)] pn now hch1
    rw [← hmid] at haux
    unfold CRSFParam.processSeq at haux
    rw [haux]
    -- the terminal chunk over the fully assembled buffer
    have hA : ({ p with chunks := [some (pn :: (r0 :: rs).length :: c0)]
        ++ (storedChunks pn (r0 :: rs).dropLast ++ [none]) } : CRSFParam).chunks
        = ([some (pn :: (r0 :: rs).length :: c0)]
            ++ storedChunks pn (r0 :: rs).dropLast) ++ [none] := by
      show [some (pn :: (r0 :: rs).length :: c0)]
          ++ (storedChunks pn (r0 :: rs).dropLast ++ [none]) = _
      rw [List.append_assoc]
    have hLmap : ([some (pn :: (r0 :: rs).length :: c0)]
          ++ storedChunks pn (r0 :: rs).dropLast)
          ++ [some (pn :: 0 :: (r0 :: rs).getLast hrne)]
        = (chunkFrames pn (c0 :: r0 :: rs)).map some := by
      rw [List.append_assoc,
        chunkFrames_map_some pn (r0 :: rs).dropLast ((r0 :: rs).getLast hrne)
          |>.symm]
      rw [← hmid]
      rfl
    have hvalid : CRSFParam.chunksValid
        ({ p with chunks := [some (pn :: (r0 :: rs).length :: c0)]
          ++ (storedChunks pn (r0 :: rs).dropLast ++ [none]) } : CRSFParam).num
        ((chunkFrames pn (c0 :: r0 :: rs)).map some) = some true := by
      show CRSFParam.chunksValid p.num _ = some true
      rw [← hnum]
      exact chunksValid_chunkFrames pn (c0 :: r0 :: rs)
    rw [process_entry_terminal _ pn ((r0 :: rs).getLast hrne) now
      ([some (pn :: (r0 :: rs).length :: c0)]
        ++ storedChunks pn (r0 :: rs).dropLast)
      (chunkFrames pn (c0 :: r0 :: rs)) hA hLmap hvalid]
    -- both sides are now decodes of the same entry bytes
    have hq2 : ({ ({ p with chunks := [some (pn :: (r0 :: rs).length :: c0)]
        ++ (storedChunks pn (r0 :: rs).dropLast ++ [none]) } : CRSFParam)
          with chunks := [] } : CRSFParam) = p := by
      show ({ p with chunks := [] } : CRSFParam) = p
      exact CRSFParam.update_chunks_self p [] hfresh
    rw [hq2]
    congr 1
    -- the reassembled payload, stripped of its two leading bytes
    have hmapdrop : ((chunkFrames pn (c0 :: r0 :: rs)).map some).map
        (fun c => (c.getD []).drop 2) = c0 :: r0 :: rs := by
      rw [List.map_map]
      have : ((fun (c : Option (List Nat)) => (c.getD []).drop 2) ∘ some)
          = fun (f : List Nat) => f.drop 2 := by
        funext f
        rfl
      rw [this, chunkFrames_drop2]
    rw [hmapdrop]
    show ((pn :: (r0 :: rs).length :: c0).take 2
        ++ (c0 :: r0 :: rs).flatten).drop 2 = (c0 :: r0 :: rs).flatten
    rfl

/-- Claim C3: delivering a parameter entry split into PARAM_ENTRY frames
in strict decreasing chunks_remaining order — each chunk carrying the
same param_num in byte 0 and the continuation bytes from payload offset 2
on — leaves the parameter in exactly the same decoded state as delivering
the equivalent single-frame entry with chunks_remaining = 0, and when the
entry decodes successfully the delivery stamps a positive
obtained_time. -/
theorem c3_chunked_equals_single (p : CRSFParam) (pieces : List (List Nat))
    (pn d o : Nat) (now : ℚ) (q : CRSFParam)
    (hfresh : p.chunks = []) (hnum : pn = p.num) (hne : pieces ≠ [])
    (hnow : 0 < now)
    (hq : CRSFParam.process_frame p
        (param_entry_frame d o (pn :: 0 :: pieces.flatten)) now = some q)
    (hsucc : q.obtained_time = now) :
    processFrameSeq p ((chunkFrames pn pieces).map (param_entry_frame d o))
        now = some q ∧ 0 < q.obtained_time := by
  constructor
  · have hfold : processFrameSeq p
        ((chunkFrames pn pieces).map (param_entry_frame d o)) now
        = CRSFParam.processSeq p (chunkFrames pn pieces) now := by
      unfold processFrameSeq CRSFParam.processSeq
      rw [List.foldlM_map]
      have hfn : (fun (s : CRSFParam) (x : List Nat) =>
          CRSFParam.process_frame s (param_entry_frame d o x) now)
          = fun s x => CRSFParam.process_entry s x now := by
        funext s x
        exact process_frame_param_entry s d o x now
      rw [hfn]
    rw [hfold, process_chunked_eq_single p pieces pn now hfresh hnum hne,
      ← process_frame_param_entry p d o (pn :: 0 :: pieces.flatten) now, hq]
  · rw [hsucc]
    exact hnow

/-- Witness for C3: a concrete FLOAT entry delivered in three chunks
(chunks_remaining 2, 1, 0) decodes exactly as the single frame does. -/
theorem c3_chunked_equals_single_witness :
    processFrameSeq (CRSFParam.init 3)
        ((chunkFrames 3 [[0, 8, 86, 0, 0],
            [0, 0, 1, 0, 0, 0, 0, 0, 0, 3],
            [232, 0, 0, 0, 1, 2, 0, 0, 0, 1, 37, 0]]).map
          (param_entry_frame 0xC8 0xEA)) 1
      = some { num := 3, parent_folder := some 0, type := some 8,
               name := [86], value := some (PValue.int 1), min := some 0,
               default := some 1, max := some 1000, unit := some [37],
               decimal_point := some 2, step_size := some 1,
               obtained_time := 1 } ∧
    (0 : ℚ) <
      ({ num := 3, parent_folder := some 0, type := some 8,
         name := [86], value := some (PValue.int 1), min := some 0,
         default := some 1, max := some 1000, unit := some [37],
         decimal_point := some 2, step_size := some 1,
         obtained_time := 1 } : CRSFParam).obtained_time :=
  c3_chunked_equals_single (CRSFParam.init 3)
    [[0, 8, 86, 0, 0],
     [0, 0, 1, 0, 0, 0, 0, 0, 0, 3],
     [232, 0, 0, 0, 1, 2, 0, 0, 0, 1, 37, 0]]
    3 0xC8 0xEA 1
    { num := 3, parent_folder := some 0, type := some 8,
      name := [86], value := some (PValue.int 1), min := some 0,
      default := some 1, max := some 1000, unit := some [37],
      decimal_point := some 2, step_size := some 1, obtained_time := 1 }
    rfl rfl (by simp) (by norm_num) (by rfl) rfl

/-- Witness for C10 on a concrete PING frame. -/
theorem c10_emitted_frame_invariants_witness :
    [0xC8, 0x04, 0x28, 0x00, 0xEA, 0x54]
        ∈ (parserDigest [] [0xC8, 0x04, 0x28, 0x00, 0xEA, 0x54]).1 ∧
      frameInv [0xC8, 0x04, 0x28, 0x00, 0xEA, 0x54] :=
  ⟨by decide,
   c10_emitted_frame_invariants [] [0xC8, 0x04, 0x28, 0x00, 0xEA, 0x54]
     [0xC8, 0x04, 0x28, 0x00, 0xEA, 0x54] (by decide)⟩

end TbsAgent
